import Mathlib

/-!
Verification of the state/persistence core of the BetMaster Planner
(src/App.tsx, src/services/geminiService.ts, src/types.ts).

The spec's vocabulary maps onto the source as follows: Entry = `GameEntry`
(description = `match`, category = `league`, outcome = `status` with
pending/positive/negative/voided spelled "pending"/"win"/"loss"/"void"),
DayPlan = `DayPlan`, PlanStore = `AppData = Record<string, DayPlan>`,
getOrInitDayPlan = the `selectedDayPlan` memo, setEntryField =
`handleUpdateGame`, addEntry = `handleAddGame`, removeEntry =
`handleRemoveGame`, the Advisory Client = `analyzeDayPicks`, and the
Import/Export Gateway = `importData`/`exportData`.
`crypto.randomUUID()` is an opaque generator, so every id it draws appears
as an explicit parameter.
-/

namespace Planner

/-- One game entry at runtime.  The TypeScript interface `GameEntry` declares five
string-valued fields (`id`, `time`, `league`, `match`, `status`; `status` is a union of
string literals, so a plain string at runtime).  A runtime object can lack some of the
properties: `handleUpdateGame` writes `{ ...undefined, [field]: value }` when its index
is out of range, producing an object with a single property.  A field of `none` models
an absent (`undefined`) property; entries made by `createNewGame` have every field. -/
structure GameEntry where
  id : Option String
  time : Option String
  league : Option String
  «match» : Option String
  status : Option String
deriving Repr, DecidableEq

/-- One day's plan: the TypeScript interface `DayPlan` with `date` and `games`.  A
`games` element of `none` models a JavaScript array hole (an `undefined` slot), which
only an out-of-range write in `handleUpdateGame` can produce. -/
structure DayPlan where
  date : String
  games : List (Option GameEntry)
deriving Repr, DecidableEq

/-- `AppData = Record<string, DayPlan>`: a JavaScript object modelled as an association
list in property insertion order (JS objects preserve insertion order of string keys,
which is also the order `JSON.stringify` writes them in). -/
abbrev AppData := List (String × DayPlan)

/-- The property read `appData[k]`: the value at key `k`, or `undefined` (`none`). -/
def jsGet (a : AppData) (k : String) : Option DayPlan :=
  match a with
  | [] => none
  | (k', v) :: rest => if k' = k then some v else jsGet rest k

/-- The spread update `{ ...prev, [k]: v }`: an existing key keeps its position and is
overwritten, a new key is appended at the end; a fresh object is returned, the previous
one untouched. -/
def jsSetKey (a : AppData) (k : String) (v : DayPlan) : AppData :=
  match a with
  | [] => [(k, v)]
  | (k', v') :: rest => if k' = k then (k, v) :: rest else (k', v') :: jsSetKey rest k v

/-- `createNewGame` (src/App.tsx:38-44): a blank entry whose id comes from the opaque
uuid generator, passed here as `uuid`. -/
def createNewGame (uuid : String) : GameEntry :=
  { id := some uuid, time := some "", league := some "", «match» := some "",
    status := some "pending" }

/-- `selectedDayPlan` (src/App.tsx:68-74): `null` when no date is selected, otherwise
`appData[selectedDate] || { date: selectedDate, games: [createNewGame()] }`.  A stored
`DayPlan` is an object and objects are truthy, so the right operand is evaluated exactly
when the key is absent; `freshId` is the id its `createNewGame()` would then draw.
This is the spec's `getOrInitDayPlan`; it is a `useMemo`, a pure read that never writes
the store. -/
def selectedDayPlan (appData : AppData) (selectedDate : Option String)
    (freshId : String) : Option DayPlan :=
  match selectedDate with
  | none => none
  | some d =>
    some ((jsGet appData d).getD { date := d, games := [some (createNewGame freshId)] })

/-- The `field: keyof GameEntry` argument of `handleUpdateGame`. -/
inductive Field where
  | id
  | time
  | league
  | «match»
  | status
deriving Repr, DecidableEq

/-- The computed-key write `[field]: value` on an entry object: the named property is
set to the string `value`, the others are untouched. -/
def GameEntry.setField (g : GameEntry) : Field → String → GameEntry
  | .id, v => { g with id := some v }
  | .time, v => { g with time := some v }
  | .league, v => { g with league := some v }
  | .«match», v => { g with «match» := some v }
  | .status, v => { g with status := some v }

/-- The empty object `{}`: an entry record with every property absent. -/
def emptyEntry : GameEntry :=
  { id := none, time := none, league := none, «match» := none, status := none }

/-- The element read `newGames[index]` on a possibly sparse array: `undefined` out of
range or at a hole. -/
def jsIndex (l : List (Option GameEntry)) (i : Nat) : Option GameEntry :=
  (l.get? i).join

/-- `{ ...newGames[index], [field]: value }` (src/App.tsx:85): spreading `undefined`
yields `{}`, so an out-of-range index produces an object with the one written field. -/
def spreadSet (o : Option GameEntry) (f : Field) (v : String) : GameEntry :=
  (o.getD emptyEntry).setField f v

/-- The element write `newGames[index] = x`: in range it replaces the element; at or
past the end it extends the array to length `index + 1`, filling any gap with holes
(JavaScript sparse-array assignment). -/
def jsArraySet (l : List (Option GameEntry)) (i : Nat) (x : GameEntry) :
    List (Option GameEntry) :=
  if i < l.length then l.set i (some x)
  else l ++ List.replicate (i - l.length) none ++ [some x]

/-- `handleUpdateGame` (src/App.tsx:76-93), the spec's `setEntryField`.  `freshId1` is
the id `selectedDayPlan` would draw for an absent date; `freshId2` belongs to the `||`
fallback on lines 79-82, which is dead code (`selectedDayPlan` is non-null whenever
`selectedDate` is). -/
def handleUpdateGame (appData : AppData) (selectedDate : Option String) (index : Nat)
    (field : Field) (value : String) (freshId1 freshId2 : String) : AppData :=
  match selectedDate with
  | none => appData
  | some d =>
    let currentPlan := (selectedDayPlan appData (some d) freshId1).getD
      { date := d, games := [some (createNewGame freshId2)] }
    let newGames :=
      jsArraySet currentPlan.games index (spreadSet (jsIndex currentPlan.games index) field value)
    let newPlan : DayPlan := { currentPlan with games := newGames }
    jsSetKey appData d newPlan

/-- `handleAddGame` (src/App.tsx:95-103), the spec's `addEntry`.  `freshId1` feeds
`selectedDayPlan`'s fallback for an absent date; `freshId2` is the id of the appended
`createNewGame()`. -/
def handleAddGame (appData : AppData) (selectedDate : Option String)
    (freshId1 freshId2 : String) : AppData :=
  match selectedDate with
  | none => appData
  | some d =>
    let currentPlan := (selectedDayPlan appData (some d) freshId1).getD
      { date := d, games := [] }
    let newPlan : DayPlan :=
      { currentPlan with games := currentPlan.games ++ [some (createNewGame freshId2)] }
    jsSetKey appData d newPlan

/-- `selectedDayPlan.games.filter(g => g.id !== id)` (src/App.tsx:107):
`Array.prototype.filter` skips holes (so a sparse array comes out dense), and an entry
whose `id` property is absent compares `undefined !== id`, which is true, so it is
kept. -/
def filterOutId (l : List (Option GameEntry)) (target : String) :
    List (Option GameEntry) :=
  l.filterMap fun s =>
    match s with
    | none => none
    | some g => if g.id = some target then none else some (some g)

/-- `handleRemoveGame` (src/App.tsx:105-114), the spec's `removeEntry`.  `freshId1`
feeds `selectedDayPlan`; `freshId2` is the id of the replacement `createNewGame()` when
the filtered list came out empty. -/
def handleRemoveGame (appData : AppData) (selectedDate : Option String) (target : String)
    (freshId1 freshId2 : String) : AppData :=
  match selectedDate with
  | none => appData
  | some d =>
    match selectedDayPlan appData (some d) freshId1 with
    | none => appData
    | some plan =>
      let newGames := filterOutId plan.games target
      let finalGames :=
        if newGames.length = 0 then [some (createNewGame freshId2)] else newGames
      jsSetKey appData d { plan with games := finalGames }

/-- `handleClearDay` (src/App.tsx:116-126), the spec's `clearDay`: behind a
`window.confirm`, modelled by the `confirmed` flag. -/
def handleClearDay (appData : AppData) (selectedDate : Option String) (confirmed : Bool)
    (freshId : String) : AppData :=
  match selectedDate with
  | none => appData
  | some d =>
    if confirmed then jsSetKey appData d { date := d, games := [some (createNewGame freshId)] }
    else appData

/-! ## C1: the length-at-least-one invariant under addEntry / removeEntry -/

/-- One user action on a fixed selected date: pressing "add", or removing an entry by
id.  The string arguments are the ids the uuid generator yields during that action. -/
inductive DayOp where
  | add (freshId1 freshId2 : String)
  | remove (target freshId1 freshId2 : String)
deriving Repr, DecidableEq

/-- Running one `DayOp` against the store with `selectedDate = some d`. -/
def applyDayOp (d : String) (s : AppData) : DayOp → AppData
  | .add i1 i2 => handleAddGame s (some d) i1 i2
  | .remove t i1 i2 => handleRemoveGame s (some d) t i1 i2

/-- Running a sequence of `DayOp`s left to right. -/
def applyDayOps (d : String) (s : AppData) (ops : List DayOp) : AppData :=
  ops.foldl (applyDayOp d) s

theorem jsGet_jsSetKey (a : AppData) (k : String) (v : DayPlan) :
    jsGet (jsSetKey a k v) k = some v := by
  induction a with
  | nil => simp [jsSetKey, jsGet]
  | cons h t ih =>
    obtain ⟨k', v'⟩ := h
    by_cases hk : k' = k
    · simp [jsSetKey, hk, jsGet]
    · simp [jsSetKey, hk, jsGet, ih]

theorem applyDayOp_entries_pos (d : String) (s : AppData) (op : DayOp) :
    ∃ p, jsGet (applyDayOp d s op) d = some p ∧ 1 ≤ p.games.length := by
  cases op with
  | add i1 i2 =>
    simp only [applyDayOp, handleAddGame]
    refine ⟨_, jsGet_jsSetKey _ _ _, ?_⟩
    simp
  | remove t i1 i2 =>
    simp only [applyDayOp, handleRemoveGame, selectedDayPlan]
    refine ⟨_, jsGet_jsSetKey _ _ _, ?_⟩
    split
    · simp
    · rename_i hlen
      simp only [DayPlan.games]
      omega

/-- C1: for every sequence of addEntry (`handleAddGame`) and removeEntry
(`handleRemoveGame`) operations applied to a given date, the `DayPlan` stored for that
date exists and its entries list has length at least 1 after every call (instantiate
`ops` with each prefix of a longer sequence); in particular removing the last remaining
entry leaves a single fresh blank entry rather than an empty list or a deleted key. -/
theorem addRemove_entries_invariant (d : String) (s : AppData) (ops : List DayOp)
    (h : ops ≠ []) :
    ∃ p, jsGet (applyDayOps d s ops) d = some p ∧ 1 ≤ p.games.length := by
  rcases List.eq_nil_or_concat ops with rfl | ⟨l, op, rfl⟩
  · exact absurd rfl h
  · rw [applyDayOps, List.concat_eq_append, List.foldl_append, List.foldl_cons,
      List.foldl_nil]
    exact applyDayOp_entries_pos d _ op

/-- Witness for C1: the single-operation sequence "add one entry on 2024-06-01" run
from the empty store. -/
theorem addRemove_entries_invariant_witness :
    ([DayOp.add "u1" "u2"] ≠ ([] : List DayOp)) ∧
      ∃ p, jsGet (applyDayOps "2024-06-01" [] [DayOp.add "u1" "u2"]) "2024-06-01" =
        some p ∧ 1 ≤ p.games.length :=
  ⟨by simp, addRemove_entries_invariant "2024-06-01" [] [DayOp.add "u1" "u2"] (by simp)⟩

/-! ## C4: getOrInitDayPlan on a stored plan with an empty entries list -/

/-- A store as left by importing `{"2024-06-01": {"date":"2024-06-01","games":[]}}`:
the day plan for 2024-06-01 is present with an empty entries list. -/
def emptyGamesStore : AppData :=
  [("2024-06-01", { date := "2024-06-01", games := [] })]

/-- C4 counterexample: on a store whose stored DayPlan at "2024-06-01" has an empty
entries list, `selectedDayPlan` (the spec's `getOrInitDayPlan`) returns that stored
plan as-is, with zero entries rather than "at least one (blank) entry": a stored
`DayPlan` object is truthy, so the `||` fallback never fires for a present key. -/
theorem getOrInit_empty_counterexample :
    selectedDayPlan emptyGamesStore (some "2024-06-01") "fresh" =
        some { date := "2024-06-01", games := [] } ∧
      ((selectedDayPlan emptyGamesStore (some "2024-06-01") "fresh").map
          (fun p => p.games.length)) = some 0 := by
  exact ⟨rfl, rfl⟩

/-- C4 amended: `getOrInitDayPlan` (= `selectedDayPlan`) returns the stored `DayPlan`
unchanged whenever the key is present — including a stored plan whose entries list is
empty, for which it returns zero entries and materializes nothing — and synthesizes a
plan with one blank entry only when the key is absent.  (It is a pure `useMemo` read,
so it never modifies the stored value.) -/
theorem getOrInit_amended (a : AppData) (d : String) (freshId : String) :
    (∀ p, jsGet a d = some p → selectedDayPlan a (some d) freshId = some p) ∧
      (jsGet a d = none →
        selectedDayPlan a (some d) freshId =
          some { date := d, games := [some (createNewGame freshId)] }) := by
  constructor
  · intro p hp
    simp [selectedDayPlan, hp]
  · intro hp
    simp [selectedDayPlan, hp]

/-- Witness for C4 amended: the imported empty-games plan is returned as stored. -/
theorem getOrInit_amended_witness :
    selectedDayPlan emptyGamesStore (some "2024-06-01") "fresh" =
      some { date := "2024-06-01", games := [] } :=
  (getOrInit_amended emptyGamesStore "2024-06-01" "fresh").1
    { date := "2024-06-01", games := [] } (by rfl)

/-! ## C5: the add-then-edit scenario from the empty store -/

/-- The store after `addEntry` (= `handleAddGame`) on "2024-06-01" from the empty
store; the generator draws "u1" for the blank entry `selectedDayPlan` materializes and
"u2" for the appended one. -/
def c5afterAdd : AppData := handleAddGame [] (some "2024-06-01") "u1" "u2"

/-- ... then `setEntryField` writing description (= `match`) of the first entry. -/
def c5afterDesc : AppData :=
  handleUpdateGame c5afterAdd (some "2024-06-01") 0 Field.«match» "Team A vs Team B"
    "u3" "u4"

/-- ... then `setEntryField` writing time of the first entry. -/
def c5final : AppData :=
  handleUpdateGame c5afterDesc (some "2024-06-01") 0 Field.time "18:00" "u5" "u6"

/-- The number of entries the store holds for a date (`undefined` when the key is
absent). -/
def storedGamesCount (a : AppData) (d : String) : Option Nat :=
  (jsGet a d).map fun p => p.games.length

/-- C5 counterexample: the claimed scenario (empty store, addEntry, set description,
set time) leaves a DayPlan for 2024-06-01 with TWO entries, not "exactly one":
`handleAddGame` on an unvisited date appends to the blank plan that `selectedDayPlan`
already materialized, so the day starts with two entries. -/
theorem addThenEdit_counterexample :
    storedGamesCount c5final "2024-06-01" = some 2 ∧
      storedGamesCount c5final "2024-06-01" ≠ some 1 := by
  exact ⟨rfl, by decide⟩

/-- C5 amended: the scenario yields a DayPlan for "2024-06-01" with exactly two
entries: the first (the one edited, at position 0) has description "Team A vs Team B",
time "18:00" and outcome "pending", and the second is a fresh blank entry. -/
theorem addThenEdit_amended :
    jsGet c5final "2024-06-01" =
      some { date := "2024-06-01",
             games := [some { id := some "u1", time := some "18:00", league := some "",
                              «match» := some "Team A vs Team B",
                              status := some "pending" },
                       some (createNewGame "u2")] } := by
  rfl

/-! ## C6: setEntryField on a nonexistent entry position -/

/-- A one-entry store for the C6 counterexample. -/
def c6store : AppData :=
  [("2024-06-01", { date := "2024-06-01", games := [some (createNewGame "g1")] })]

/-- C6 counterexample: `setEntryField` (= `handleUpdateGame`) with a nonexistent entry
position is NOT a silent no-op.  At index 1 of a one-entry day,
`newGames[1] = { ...undefined, time: value }` appends a stub object holding only the
written field, so the stored day plan changes from one entry to two. -/
theorem setEntryField_missing_counterexample :
    jsGet (handleUpdateGame c6store (some "2024-06-01") 1 Field.time "18:00" "u1" "u2")
        "2024-06-01" =
      some { date := "2024-06-01",
             games := [some (createNewGame "g1"),
                       some { emptyEntry with time := some "18:00" }] } ∧
      jsGet (handleUpdateGame c6store (some "2024-06-01") 1 Field.time "18:00" "u1" "u2")
          "2024-06-01" ≠
        jsGet c6store "2024-06-01" := by
  exact ⟨rfl, by decide⟩

/-- C6 amended: with no selected date `handleUpdateGame` is a no-op; with an in-range
index it replaces only the named field of the entry at that index of the stored plan;
but with an out-of-range index it is not a no-op: it writes a fresh object holding only
the assigned field at that index, extending the entries array (with holes before it if
the index skips past the end). -/
theorem setEntryField_amended (a : AppData) (d : String) (i : Nat) (f : Field)
    (v : String) (u1 u2 : String) :
    (handleUpdateGame a none i f v u1 u2 = a) ∧
      (∀ p g, jsGet a d = some p → p.games.get? i = some (some g) →
        jsGet (handleUpdateGame a (some d) i f v u1 u2) d =
          some { p with games := p.games.set i (some (g.setField f v)) }) ∧
      (∀ p, jsGet a d = some p → p.games.length ≤ i →
        jsGet (handleUpdateGame a (some d) i f v u1 u2) d =
          some { p with games :=
            p.games ++ List.replicate (i - p.games.length) none ++
              [some (emptyEntry.setField f v)] }) := by
  refine ⟨rfl, ?_, ?_⟩
  · intro p g hp hg
    have hi : i < p.games.length := by
      by_contra hge
      rw [List.get?_eq_none.mpr (by omega)] at hg
      exact Option.noConfusion hg
    have hslot : p.games[i] = some g := by
      have h2 := List.getElem?_eq_getElem hi
      rw [List.get?_eq_getElem?, h2] at hg
      exact Option.some_inj.mp hg
    simp [handleUpdateGame, selectedDayPlan, hp, jsIndex, hslot, spreadSet, jsArraySet,
      hi, jsGet_jsSetKey]
  · intro p hp hlen
    have hg : p.games[i]? = none := by
      rw [← List.get?_eq_getElem?]
      exact List.get?_eq_none.mpr hlen
    simp [handleUpdateGame, selectedDayPlan, hp, jsIndex, hg, spreadSet, jsArraySet,
      Nat.not_lt.mpr hlen, jsGet_jsSetKey]

/-- Witness for C6 amended: its three parts at concrete inputs — a store with no
selected date, an in-range edit at index 0, and an out-of-range edit at index 1. -/
theorem setEntryField_amended_witness :
    (handleUpdateGame c6store none 0 Field.time "09:00" "u1" "u2" = c6store) ∧
      jsGet (handleUpdateGame c6store (some "2024-06-01") 0 Field.time "09:00" "u1" "u2")
          "2024-06-01" =
        some { date := "2024-06-01",
               games := [some (createNewGame "g1")].set 0
                 (some ((createNewGame "g1").setField Field.time "09:00")) } ∧
      jsGet (handleUpdateGame c6store (some "2024-06-01") 1 Field.league "Liga" "u1" "u2")
          "2024-06-01" =
        some { date := "2024-06-01",
               games := [some (createNewGame "g1")] ++ List.replicate 0 none ++
                 [some (emptyEntry.setField Field.league "Liga")] } := by
  refine ⟨(setEntryField_amended c6store "2024-06-01" 0 Field.time "09:00" "u1" "u2").1,
    (setEntryField_amended c6store "2024-06-01" 0 Field.time "09:00" "u1" "u2").2.1
      { date := "2024-06-01", games := [some (createNewGame "g1")] }
      (createNewGame "g1") (by rfl) (by rfl), ?_⟩
  exact (setEntryField_amended c6store "2024-06-01" 1 Field.league "Liga" "u1" "u2").2.2
    { date := "2024-06-01", games := [some (createNewGame "g1")] } (by rfl) (by decide)

/-! ## C7: the manual save status machine -/

/-- The `saveStatus` UI state (src/App.tsx:55). -/
inductive SaveStatus where
  | idle
  | saving
  | saved
deriving Repr, DecidableEq

/-- The observables of one run of `handleManualSave`: the statuses the UI passes
through (after the initial `idle`), any user-facing alert, whether the handler threw,
and the in-memory store when it is over. -/
structure ManualSaveRun where
  statuses : List SaveStatus
  alert : Option String
  threw : Bool
  store : AppData
deriving Repr, DecidableEq

/-- `handleManualSave` (src/App.tsx:142-150), with the `localStorage.setItem` outcome
abstracted as `writeOk` (`false` = the write throws, e.g. quota exceeded).  The handler
sets `saving`, then writes; there is no try/catch, so a throwing write propagates out
of the handler: the `setTimeout`s are never scheduled, the status stays `saving`, and
no alert is shown.  On success the timers later set `saved` and, 2000ms on, `idle`.
Nothing here calls `setAppData`, so the in-memory store is untouched either way. -/
def handleManualSave (writeOk : Bool) (appData : AppData) : ManualSaveRun :=
  if writeOk then
    { statuses := [SaveStatus.saving, SaveStatus.saved, SaveStatus.idle], alert := none,
      threw := false, store := appData }
  else
    { statuses := [SaveStatus.saving], alert := none, threw := true, store := appData }

/-- C7 counterexample: when the backing-store write throws, the manual save neither
reports the failure to the user (no alert) nor returns to `idle`: the status machine
stops at `saving` and the exception escapes the handler. -/
theorem manualSave_failure_counterexample :
    (handleManualSave false []).statuses.getLast? = some SaveStatus.saving ∧
      (handleManualSave false []).statuses.getLast? ≠ some SaveStatus.idle ∧
      (handleManualSave false []).alert = none ∧
      (handleManualSave false []).threw = true := by
  exact ⟨rfl, by decide, rfl, rfl⟩

/-- C7 amended: a successful manual save transitions idle → saving → saved → idle; a
failing write leaves the status stuck at `saving` with no failure message, the
exception escaping the handler instead; in either case the in-memory store is never
rolled back. -/
theorem manualSave_amended (a : AppData) :
    (handleManualSave true a).statuses =
        [SaveStatus.saving, SaveStatus.saved, SaveStatus.idle] ∧
      (handleManualSave true a).alert = none ∧
      (handleManualSave false a).statuses = [SaveStatus.saving] ∧
      (handleManualSave false a).alert = none ∧
      (handleManualSave false a).threw = true ∧
      (handleManualSave true a).store = a ∧
      (handleManualSave false a).store = a := by
  exact ⟨rfl, rfl, rfl, rfl, rfl, rfl, rfl⟩

/-! ## C8: the Advisory Client (`analyzeDayPicks`, src/services/geminiService.ts) -/

/-- JavaScript template interpolation of a possibly-absent string property:
`${undefined}` renders as "undefined". -/
def tmpl (o : Option String) : String := o.getD "undefined"

/-- JavaScript truthiness of a string-valued, possibly-absent property: `undefined`
and the empty string are the falsy cases. -/
def truthy (o : Option String) : Bool := o.getD "" != ""

/-- `dayPlan.games.filter(g => g.match && g.league)` (geminiService.ts:9): the entries
with both a truthy `match` and a truthy `league`; `filter` skips array holes. -/
def activeGames (p : DayPlan) : List GameEntry :=
  p.games.filterMap fun s =>
    match s with
    | none => none
    | some g => if truthy g.«match» && truthy g.league then some g else none

/-- The template ``- ${g.time}: ${g.match} (${g.league})`` (geminiService.ts:10). -/
def gameLine (g : GameEntry) : String :=
  "- " ++ tmpl g.time ++ ": " ++ tmpl g.«match» ++ " (" ++ tmpl g.league ++ ")"

/-- `Array.prototype.join(sep)`. -/
def jsJoin (sep : String) : List String → String
  | [] => ""
  | [a] => a
  | a :: rest => a ++ sep ++ jsJoin sep rest

/-- `gamesText` (geminiService.ts:8-11). -/
def gamesText (p : DayPlan) : String :=
  jsJoin "\n" ((activeGames p).map gameLine)

/-- The prompt text sent to the external service (geminiService.ts:18). -/
def promptFor (p : DayPlan) : String :=
  "Analise estes jogos de apostas para o dia " ++ p.date ++ ":\n" ++ gamesText p ++
    "\nForneça um resumo rápido sobre a dificuldade dos confrontos e uma dica estratégica curta."

/-- The external call's outcome: a response whose `text` may be absent, or a thrown
error. -/
inductive ApiResp where
  | ok (text : Option String)
  | err
deriving Repr, DecidableEq

/-- The observables of one `analyzeDayPicks` call: how many external requests it makes,
the prompt of that request if any, and the string it resolves with. -/
structure AnalyzeRun where
  calls : Nat
  prompt : Option String
  result : String
deriving Repr, DecidableEq

/-- `analyzeDayPicks` (geminiService.ts:5-29), the external service abstracted as
`resp`.  `!gamesText` is true exactly for the empty string, giving the fixed message
and no call; otherwise one request is made, `response.text || ...` maps an absent or
empty text to a fixed fallback, and a thrown error is caught and mapped to a fixed
error string (never re-thrown). -/
def analyzeDayPicks (p : DayPlan) (resp : ApiResp) : AnalyzeRun :=
  if gamesText p = "" then
    { calls := 0, prompt := none,
      result := "Adicione jogos para receber uma análise da IA." }
  else
    { calls := 1, prompt := some (promptFor p),
      result :=
        match resp with
        | .ok t =>
          if truthy t then t.getD "" else "Não foi possível gerar análise no momento."
        | .err => "Erro ao conectar com a inteligência artificial." }

/-- The claim's own predicate, in the spec's words: does the DayPlan contain an entry
with non-empty description (= `match`)?  (A hole has no description.) -/
def specHasNonEmptyDescription (p : DayPlan) : Bool :=
  p.games.any fun s =>
    match s with
    | none => false
    | some g => truthy g.«match»

/-- The predicate the code actually branches on: some entry has both a non-empty
description (`match`) and a non-empty category (`league`). -/
def hasActiveEntry (p : DayPlan) : Bool :=
  p.games.any fun s =>
    match s with
    | none => false
    | some g => truthy g.«match» && truthy g.league

theorem gameLine_length_pos (g : GameEntry) : 0 < (gameLine g).length := by
  have h2 : ("- " : String).length = 2 := rfl
  simp only [gameLine, String.length_append, h2]
  omega

theorem jsJoin_length_ge (sep a : String) (l : List String) :
    a.length ≤ (jsJoin sep (a :: l)).length := by
  cases l with
  | nil => simp [jsJoin]
  | cons b t =>
    simp only [jsJoin, String.length_append]
    omega

theorem activeGames_eq_nil_iff (p : DayPlan) :
    activeGames p = [] ↔ hasActiveEntry p = false := by
  rw [activeGames, hasActiveEntry, List.filterMap_eq_nil_iff, List.any_eq_false]
  constructor
  · intro h s hs
    have hh := h s hs
    cases s with
    | none => simp
    | some g =>
      have hh2 :
          (if (truthy g.«match» && truthy g.league) = true then some g else none) =
            none := hh
      by_cases hc : (truthy g.«match» && truthy g.league) = true
      · rw [if_pos hc] at hh2
        exact Option.noConfusion hh2
      · exact hc
  · intro h s hs
    have hh := h s hs
    cases s with
    | none => rfl
    | some g =>
      have hh2 : ¬(truthy g.«match» && truthy g.league) = true := hh
      show (if (truthy g.«match» && truthy g.league) = true then some g else none) = none
      rw [if_neg hh2]

theorem gamesText_eq_empty_iff (p : DayPlan) :
    gamesText p = "" ↔ hasActiveEntry p = false := by
  rw [← activeGames_eq_nil_iff]
  constructor
  · intro h
    cases hl : activeGames p with
    | nil => rfl
    | cons g t =>
      exfalso
      rw [gamesText, hl, List.map_cons] at h
      have h2 := jsJoin_length_ge "\n" (gameLine g) (t.map gameLine)
      rw [h] at h2
      have h3 := gameLine_length_pos g
      simp at h2
      omega
  · intro h
    rw [gamesText, h]
    rfl

/-- A DayPlan with one entry whose description (`match`) is non-empty but whose
category (`league`) is empty. -/
def c8plan : DayPlan :=
  { date := "2024-06-01",
    games := [some { id := some "g1", time := some "", league := some "",
                     «match» := some "A vs B", status := some "pending" }] }

/-- C8 counterexample: `c8plan` has an entry with non-empty description, yet
`analyzeDayPicks` makes zero external calls and returns the fixed message, because the
filter also requires a non-empty category (`g.match && g.league`) — so "fixed message
with no call exactly when zero entries have non-empty description" is false. -/
theorem advisory_counterexample :
    specHasNonEmptyDescription c8plan = true ∧
      (analyzeDayPicks c8plan ApiResp.err).calls = 0 ∧
      (analyzeDayPicks c8plan ApiResp.err).result =
        "Adicione jogos para receber uma análise da IA." ∧
      ¬(((analyzeDayPicks c8plan ApiResp.err).calls = 0) ↔
          specHasNonEmptyDescription c8plan = false) := by
  exact ⟨rfl, rfl, rfl, by decide⟩

/-- C8 amended: `analyzeDayPicks` returns the fixed "nothing to analyze" message with
zero external calls exactly when the DayPlan has no entry with BOTH a non-empty
description (`match`) and a non-empty category (`league`) — an entry with a description
but an empty category is skipped too; otherwise it performs exactly one request whose
prompt enumerates each such entry's time, description and category, and a thrown
failure resolves to a fixed human-readable error string rather than re-throwing. -/
theorem advisory_amended (p : DayPlan) (resp : ApiResp) :
    ((analyzeDayPicks p resp).calls = 0 ↔ hasActiveEntry p = false) ∧
      (hasActiveEntry p = false →
        analyzeDayPicks p resp =
          { calls := 0, prompt := none,
            result := "Adicione jogos para receber uma análise da IA." }) ∧
      (hasActiveEntry p = true →
        (analyzeDayPicks p resp).calls = 1 ∧
          (analyzeDayPicks p resp).prompt = some (promptFor p)) ∧
      (hasActiveEntry p = true →
        (analyzeDayPicks p ApiResp.err).result =
          "Erro ao conectar com a inteligência artificial.") := by
  by_cases hg : gamesText p = ""
  · have ha : hasActiveEntry p = false := (gamesText_eq_empty_iff p).mp hg
    simp [analyzeDayPicks, hg, ha]
  · have ha : hasActiveEntry p = true := by
      cases hh : hasActiveEntry p
      · exact absurd ((gamesText_eq_empty_iff p).mpr hh) hg
      · rfl
    simp [analyzeDayPicks, hg, ha]

/-- A DayPlan with one fully-filled entry (non-empty description and category). -/
def c8activePlan : DayPlan :=
  { date := "2024-06-01",
    games := [some { id := some "g1", time := some "18:00", league := some "Liga A",
                     «match» := some "A vs B", status := some "pending" }] }

/-- Witness for C8 amended: the short-circuit on `c8plan` (description set, category
empty) and the one-request error path on a fully-filled plan. -/
theorem advisory_amended_witness :
    analyzeDayPicks c8plan ApiResp.err =
        { calls := 0, prompt := none,
          result := "Adicione jogos para receber uma análise da IA." } ∧
      (analyzeDayPicks c8activePlan ApiResp.err).calls = 1 ∧
      (analyzeDayPicks c8activePlan ApiResp.err).result =
        "Erro ao conectar com a inteligência artificial." :=
  ⟨(advisory_amended c8plan ApiResp.err).2.1 (by decide),
    ((advisory_amended c8activePlan ApiResp.err).2.2.1 (by decide)).1,
    (advisory_amended c8activePlan ApiResp.err).2.2.2 (by decide)⟩

/-! ## JSON: the portable text format (`JSON.stringify` / `JSON.parse`) -/

/-- A JSON value.  A number keeps its source lexeme: the planner's own data contains no
numbers (every stored field is a string), and nothing here inspects a number beyond
`typeof`. -/
inductive Json where
  | null
  | bool (b : Bool)
  | num (raw : String)
  | str (s : String)
  | arr (elems : List Json)
  | obj (fields : List (String × Json))
deriving Repr

/-- The lowercase hexadecimal digit of `n < 16`, as `JSON.stringify` writes it in a
`\u00xx` escape. -/
def hexDigit (n : Nat) : Char :=
  if n < 10 then Char.ofNat (48 + n) else Char.ofNat (87 + n)

/-- How `JSON.stringify` escapes one character inside a string literal: quote and
backslash, the short escapes for the named control characters, `\u00xx` for the other
control characters, everything else verbatim. -/
def escapeChar (c : Char) : List Char :=
  if c = '"' then ['\\', '"']
  else if c = '\\' then ['\\', '\\']
  else if c = '\n' then ['\\', 'n']
  else if c = '\r' then ['\\', 'r']
  else if c = '\t' then ['\\', 't']
  else if c = Char.ofNat 8 then ['\\', 'b']
  else if c = Char.ofNat 12 then ['\\', 'f']
  else if c.toNat < 32 then
    ['\\', 'u', '0', '0', hexDigit (c.toNat / 16), hexDigit (c.toNat % 16)]
  else [c]

def escapeList (l : List Char) : List Char := (l.map escapeChar).flatten

/-- A JSON string literal: quote, escaped body, quote. -/
def quoteStr (s : String) : List Char := '"' :: (escapeList s.data ++ ['"'])

def pad (n : Nat) : List Char := List.replicate n ' '

mutual

/-- `JSON.stringify(v, null, 2)` (the export format) at indent level `ind`: nonempty
arrays and objects break onto per-item lines indented two further, keys are followed by
a colon and one space, and empty containers print with no inner whitespace. -/
def printVal (ind : Nat) : Json → List Char
  | .null => "null".data
  | .bool true => "true".data
  | .bool false => "false".data
  | .num raw => raw.data
  | .str s => quoteStr s
  | .arr [] => ['[', ']']
  | .arr (v :: vs) =>
    '[' :: '\n' :: (printArrItems (ind + 2) v vs ++ '\n' :: (pad ind ++ [']']))
  | .obj [] => ['\x7b', '\x7d']
  | .obj ((k, v) :: fs) =>
    '\x7b' :: '\n' :: (printObjItems (ind + 2) k v fs ++ '\n' :: (pad ind ++ ['\x7d']))
termination_by j => 2 * sizeOf j

/-- The comma-newline separated, indented items of a nonempty pretty-printed array. -/
def printArrItems (ind : Nat) (v : Json) (vs : List Json) : List Char :=
  pad ind ++ printVal ind v ++
    match vs with
    | [] => []
    | w :: ws => ',' :: '\n' :: printArrItems ind w ws
termination_by 2 * sizeOf v + 2 * sizeOf vs + 1

/-- The comma-newline separated, indented items of a nonempty pretty-printed object. -/
def printObjItems (ind : Nat) (k : String) (v : Json) (fs : List (String × Json)) :
    List Char :=
  pad ind ++ quoteStr k ++ ':' :: ' ' :: printVal ind v ++
    match fs with
    | [] => []
    | (k2, v2) :: gs => ',' :: '\n' :: printObjItems ind k2 v2 gs
termination_by 2 * sizeOf v + 2 * sizeOf fs + 1

end

mutual

/-- `JSON.stringify(v)` with no space argument (the autosave and manual-save format):
no whitespace at all. -/
def printValC : Json → List Char
  | .null => "null".data
  | .bool true => "true".data
  | .bool false => "false".data
  | .num raw => raw.data
  | .str s => quoteStr s
  | .arr [] => ['[', ']']
  | .arr (v :: vs) => '[' :: (printArrItemsC v vs ++ [']'])
  | .obj [] => ['\x7b', '\x7d']
  | .obj ((k, v) :: fs) => '\x7b' :: (printObjItemsC k v fs ++ ['\x7d'])
termination_by j => 2 * sizeOf j

def printArrItemsC (v : Json) (vs : List Json) : List Char :=
  printValC v ++
    match vs with
    | [] => []
    | w :: ws => ',' :: printArrItemsC w ws
termination_by 2 * sizeOf v + 2 * sizeOf vs + 1

def printObjItemsC (k : String) (v : Json) (fs : List (String × Json)) : List Char :=
  quoteStr k ++ ':' :: printValC v ++
    match fs with
    | [] => []
    | (k2, v2) :: gs => ',' :: printObjItemsC k2 v2 gs
termination_by 2 * sizeOf v + 2 * sizeOf fs + 1

end

/-- `JSON.stringify(v, null, 2)`. -/
def stringifyPretty (v : Json) : String := String.mk (printVal 0 v)

/-- `JSON.stringify(v)`. -/
def stringifyCompact (v : Json) : String := String.mk (printValC v)

/-- JSON insignificant whitespace. -/
def isWsChar (c : Char) : Bool := c = ' ' || c = '\n' || c = '\t' || c = '\r'

def skipWs (cs : List Char) : List Char := cs.dropWhile isWsChar

/-- The value of one hexadecimal digit, either case. -/
def hexVal (c : Char) : Option Nat :=
  if 48 ≤ c.toNat ∧ c.toNat ≤ 57 then some (c.toNat - 48)
  else if 97 ≤ c.toNat ∧ c.toNat ≤ 102 then some (c.toNat - 87)
  else if 65 ≤ c.toNat ∧ c.toNat ≤ 70 then some (c.toNat - 55)
  else none

/-- The body of a string literal, after the opening quote: the decoded characters and
the text after the closing quote.  (A `\u` escape denoting an invalid scalar would come
out as `Char.ofNat`'s default; no text in this development contains one.) -/
def parseStringBody : List Char → Option (List Char × List Char)
  | [] => none
  | c :: rest =>
    if c = '"' then some ([], rest)
    else if c = '\\' then
      match rest with
      | [] => none
      | e :: rest2 =>
        if e = '"' then (parseStringBody rest2).map fun p => ('"' :: p.1, p.2)
        else if e = '\\' then (parseStringBody rest2).map fun p => ('\\' :: p.1, p.2)
        else if e = '/' then (parseStringBody rest2).map fun p => ('/' :: p.1, p.2)
        else if e = 'b' then (parseStringBody rest2).map fun p => (Char.ofNat 8 :: p.1, p.2)
        else if e = 'f' then (parseStringBody rest2).map fun p => (Char.ofNat 12 :: p.1, p.2)
        else if e = 'n' then (parseStringBody rest2).map fun p => ('\n' :: p.1, p.2)
        else if e = 'r' then (parseStringBody rest2).map fun p => ('\r' :: p.1, p.2)
        else if e = 't' then (parseStringBody rest2).map fun p => ('\t' :: p.1, p.2)
        else if e = 'u' then
          match rest2 with
          | h1 :: h2 :: h3 :: h4 :: rest3 =>
            match hexVal h1, hexVal h2, hexVal h3, hexVal h4 with
            | some a, some b, some c2, some d =>
              (parseStringBody rest3).map fun p =>
                (Char.ofNat (4096 * a + 256 * b + 16 * c2 + d) :: p.1, p.2)
            | _, _, _, _ => none
          | _ => none
        else none
    else (parseStringBody rest).map fun p => (c :: p.1, p.2)

/-- The characters a number lexeme may contain. -/
def isNumChar (c : Char) : Bool :=
  c.isDigit || c = '-' || c = '+' || c = '.' || c = 'e' || c = 'E'

mutual

/-- One JSON value, leading whitespace allowed.  The fuel pays for each descent into an
array or object and each further element, so a budget of twice the text length always
suffices.  Together with `parseArrElems`/`parseObjFields` and `parseJson` this models
`JSON.parse`. -/
def parseVal : Nat → List Char → Option (Json × List Char)
  | 0, _ => none
  | fuel + 1, cs =>
    match skipWs cs with
    | [] => none
    | c :: rest =>
      if c = '"' then (parseStringBody rest).map fun p => (Json.str (String.mk p.1), p.2)
      else if c = '\x7b' then
        (parseObjFields fuel rest).map fun p => (Json.obj p.1, p.2)
      else if c = '[' then (parseArrElems fuel rest).map fun p => (Json.arr p.1, p.2)
      else if c = 'n' then
        match rest with
        | 'u' :: 'l' :: 'l' :: r => some (Json.null, r)
        | _ => none
      else if c = 't' then
        match rest with
        | 'r' :: 'u' :: 'e' :: r => some (Json.bool true, r)
        | _ => none
      else if c = 'f' then
        match rest with
        | 'a' :: 'l' :: 's' :: 'e' :: r => some (Json.bool false, r)
        | _ => none
      else if c.isDigit || c = '-' then
        some (Json.num (String.mk (c :: rest.takeWhile isNumChar)),
          rest.dropWhile isNumChar)
      else none

/-- The elements of an array, after the opening bracket. -/
def parseArrElems : Nat → List Char → Option (List Json × List Char)
  | 0, _ => none
  | fuel + 1, cs =>
    match skipWs cs with
    | [] => none
    | c :: rest =>
      if c = ']' then some ([], rest)
      else
        match parseVal fuel (c :: rest) with
        | none => none
        | some (v, r1) =>
          match skipWs r1 with
          | [] => none
          | c1 :: r2 =>
            if c1 = ',' then (parseArrElems fuel r2).map fun p => (v :: p.1, p.2)
            else if c1 = ']' then some ([v], r2)
            else none

/-- The fields of an object, after the opening brace. -/
def parseObjFields : Nat → List Char → Option (List (String × Json) × List Char)
  | 0, _ => none
  | fuel + 1, cs =>
    match skipWs cs with
    | [] => none
    | c :: rest =>
      if c = '\x7d' then some ([], rest)
      else if c = '"' then
        match parseStringBody rest with
        | none => none
        | some (k, r1) =>
          match skipWs r1 with
          | [] => none
          | c1 :: r2 =>
            if c1 = ':' then
              match parseVal fuel r2 with
              | none => none
              | some (v, r3) =>
                match skipWs r3 with
                | [] => none
                | c3 :: r4 =>
                  if c3 = ',' then
                    (parseObjFields fuel r4).map fun p => ((String.mk k, v) :: p.1, p.2)
                  else if c3 = '\x7d' then some ([(String.mk k, v)], r4)
                  else none
            else none
      else none

end

/-- `JSON.parse`: the whole text must be one value with only whitespace around it. -/
def parseJson (s : String) : Option Json :=
  match parseVal (2 * s.data.length + 2) s.data with
  | some (v, rest) => if skipWs rest = [] then some v else none
  | none => none

/-! ## C3: the startup load -/

/-- The `useState` initializer (src/App.tsx:48-51): `saved ? JSON.parse(saved) : {}`.
A `null` (key absent) or `""` saved value is falsy and yields the empty store; any
other value goes straight into `JSON.parse` with no try/catch, so an unparseable value
throws out of the initializer — modelled as `Except.error`. -/
def initAppData (saved : Option String) : Except String Json :=
  match saved with
  | none => Except.ok (Json.obj [])
  | some s =>
    if s = "" then Except.ok (Json.obj [])
    else
      match parseJson s with
      | some j => Except.ok j
      | none => Except.error "SyntaxError: unexpected end of JSON input"

/-- C3 counterexample: with the backing store holding the corrupt value `"\x7b"` the
startup load does not fall back to the empty store: `JSON.parse` throws and the
exception escapes the `useState` initializer — fatal to the initial render, with no
fallback value and no logged warning. -/
theorem corruptLoad_counterexample :
    initAppData (some "\x7b") =
        Except.error "SyntaxError: unexpected end of JSON input" ∧
      (initAppData (some "\x7b")).toOption = none := by
  exact ⟨rfl, rfl⟩

/-- C3 amended: an absent (or empty-string) saved value yields the empty store, but a
corrupt one does not: there is no try/catch around `JSON.parse`, so the parse error
propagates out of the initializer; the corrupt-load path is fatal to startup, with no
empty-store fallback and no logged warning.  A parseable saved value is adopted as-is. -/
theorem startupLoad_amended (s : String) :
    initAppData none = Except.ok (Json.obj []) ∧
      initAppData (some "") = Except.ok (Json.obj []) ∧
      (s ≠ "" → parseJson s = none →
        initAppData (some s) =
          Except.error "SyntaxError: unexpected end of JSON input") ∧
      (∀ j, s ≠ "" → parseJson s = some j → initAppData (some s) = Except.ok j) := by
  refine ⟨rfl, rfl, ?_, ?_⟩
  · intro hne hp
    simp [initAppData, hne, hp]
  · intro j hne hp
    simp [initAppData, hne, hp]

/-- Witness for C3 amended: the corrupt value `"\x7b"` errors, the parseable value
`"null"` is adopted. -/
theorem startupLoad_amended_witness :
    initAppData (some "\x7b") =
        Except.error "SyntaxError: unexpected end of JSON input" ∧
      initAppData (some "null") = Except.ok Json.null :=
  ⟨(startupLoad_amended "\x7b").2.2.1 (by decide) (by rfl),
    (startupLoad_amended "null").2.2.2 Json.null (by decide) (by rfl)⟩

/-! ## C10: the import shape check -/

/-- The outcome of one import attempt on a file's text: the value `setAppData` was
called with (if it was called) and the alert shown (if any). -/
structure ImportOutcome where
  newStore : Option Json
  alert : Option String
deriving Repr

/-- `typeof json === 'object'` on a parsed JSON value: true for objects, arrays and —
a JavaScript quirk — `null`; false for strings, numbers and booleans. -/
def typeofIsObject : Json → Bool
  | .null => true
  | .arr _ => true
  | .obj _ => true
  | _ => false

/-- `importData`'s `reader.onload` handler (src/App.tsx:182-192) applied to the file's
text: a parse failure is caught and alerts the error message; a parsed value passing
the `typeof` check replaces the whole store (`setAppData(json)`) and alerts success;
any other parsed value falls through both branches — no store change, no message. -/
def importData (content : String) : ImportOutcome :=
  match parseJson content with
  | none =>
    { newStore := none,
      alert :=
        some "Erro ao importar arquivo. Certifique-se que é um JSON válido do BetMaster." }
  | some j =>
    if typeofIsObject j then
      { newStore := some j, alert := some "Backup importado com sucesso!" }
    else
      { newStore := none, alert := none }

/-- C10: the import shape check is `typeof json === 'object'`: a file parsing to JSON
`null` wholesale-replaces the store with `null` (`typeof null` is "object"), while a
file parsing to a valid-JSON number or string changes nothing and shows neither a
success nor a failure message — and in general every non-object parse falls through
silently. -/
theorem import_typeof_object (s : String) (j : Json) :
    importData "null" =
        { newStore := some Json.null, alert := some "Backup importado com sucesso!" } ∧
      importData "5" = { newStore := none, alert := none } ∧
      importData "\"ola\"" = { newStore := none, alert := none } ∧
      (parseJson s = some j → typeofIsObject j = false →
        importData s = { newStore := none, alert := none }) := by
  refine ⟨rfl, rfl, rfl, ?_⟩
  intro hp ht
  simp [importData, hp, ht]

/-- Witness for C10: the general non-object clause at the string-valued file
`"\"abc\""`. -/
theorem import_typeof_object_witness :
    importData "\"abc\"" = { newStore := none, alert := none } :=
  (import_typeof_object "\"abc\"" (Json.str "abc")).2.2.2 (by rfl) (by rfl)

/-! ## The store as a JSON value -/

/-- The JSON value of one entry object.  `JSON.stringify` writes properties in
insertion order and skips `undefined`-valued ones; entries created by `createNewGame`
(and edited in range) carry the interface's declaration order, which is the order
written here. -/
def encodeEntry (g : GameEntry) : Json :=
  Json.obj
    ((match g.id with | none => [] | some s => [("id", Json.str s)]) ++
      (match g.time with | none => [] | some s => [("time", Json.str s)]) ++
      (match g.league with | none => [] | some s => [("league", Json.str s)]) ++
      (match g.«match» with | none => [] | some s => [("match", Json.str s)]) ++
      (match g.status with | none => [] | some s => [("status", Json.str s)]))

/-- `JSON.stringify` writes an array hole as `null`. -/
def encodeSlot : Option GameEntry → Json
  | none => Json.null
  | some g => encodeEntry g

def encodeDayPlan (p : DayPlan) : Json :=
  Json.obj [("date", Json.str p.date), ("games", Json.arr (p.games.map encodeSlot))]

def encodeAppData (a : AppData) : Json :=
  Json.obj (a.map fun kv => (kv.1, encodeDayPlan kv.2))

/-- `JSON.stringify(appData)`: the text the autosave effect (and the manual save)
writes under the fixed key. -/
def serializeStore (a : AppData) : String := stringifyCompact (encodeAppData a)

/-! ## C2: the autosave effect -/

/-- The states the store passes through when a list of mutations is applied in order
(each `setAppData` yields a new state and, `[appData]` being the dependency list, one
run of the autosave effect after the following render). -/
def runMutations (s : AppData) : List (AppData → AppData) → List AppData
  | [] => []
  | f :: rest => f s :: runMutations (f s) rest

/-- The writes the autosave `useEffect` (src/App.tsx:58-60) performs for those
mutations: one `localStorage.setItem` of the serialized current store per state
change, immediately after it — the effect body has no timer and no debounce. -/
def autosaveWrites (s : AppData) (ms : List (AppData → AppData)) : List String :=
  (runMutations s ms).map serializeStore

/-- The first mutation of the claim's scenario (t=0ms): an addEntry. -/
def c2mut1 : AppData → AppData := fun s => handleAddGame s (some "2024-06-01") "u1" "u2"

/-- The second mutation of the claim's scenario (t=100ms): a setEntryField. -/
def c2mut2 : AppData → AppData := fun s =>
  handleUpdateGame s (some "2024-06-01") 0 Field.time "18:00" "u3" "u4"

/-- C2 counterexample: two store mutations cause TWO persisted writes, not exactly one
— the autosave effect runs immediately after every `appData` change, with no 500ms
debounce window — and the first write persists the intermediate (t=0) state, which the
claim says is never persisted. -/
theorem autosave_counterexample :
    (autosaveWrites [] [c2mut1, c2mut2]).length = 2 ∧
      (autosaveWrites [] [c2mut1, c2mut2]).length ≠ 1 ∧
      autosaveWrites [] [c2mut1, c2mut2] =
        [serializeStore (c2mut1 []), serializeStore (c2mut2 (c2mut1 []))] := by
  exact ⟨rfl, by decide, rfl⟩

theorem runMutations_length (s : AppData) (ms : List (AppData → AppData)) :
    (runMutations s ms).length = ms.length := by
  induction ms generalizing s with
  | nil => rfl
  | cons f rest ih => simp [runMutations, ih]

theorem runMutations_getLast (s : AppData) (ms : List (AppData → AppData))
    (h : ms ≠ []) :
    (runMutations s ms).getLast? = some (ms.foldl (fun a f => f a) s) := by
  induction ms generalizing s with
  | nil => exact absurd rfl h
  | cons f rest ih =>
    cases rest with
    | nil => rfl
    | cons g t =>
      rw [runMutations, runMutations, List.getLast?_cons_cons, ← runMutations,
        List.foldl_cons]
      exact ih (f s) (by simp)

/-- C2 amended: the autosave persists on every mutation, immediately, with no debounce
timer: `n` mutations produce exactly `n` writes, each one serializing the state right
after its mutation, so for the claim's scenario both the t=0ms and the t=100ms states
are persisted (two writes, not one at t=600ms); the last write does reflect the final
state. -/
theorem autosave_amended (s : AppData) (ms : List (AppData → AppData)) :
    (autosaveWrites s ms).length = ms.length ∧
      (ms ≠ [] →
        (autosaveWrites s ms).getLast? =
          some (serializeStore (ms.foldl (fun a f => f a) s))) := by
  constructor
  · simp [autosaveWrites, runMutations_length]
  · intro h
    rw [autosaveWrites, List.getLast?_map, runMutations_getLast s ms h]
    rfl

/-- Witness for C2 amended: the two-mutation scenario. -/
theorem autosave_amended_witness :
    (autosaveWrites [] [c2mut1, c2mut2]).length = 2 ∧
      (autosaveWrites [] [c2mut1, c2mut2]).getLast? =
        some (serializeStore ([c2mut1, c2mut2].foldl (fun a f => f a) [])) :=
  ⟨(autosave_amended [] [c2mut1, c2mut2]).1,
    (autosave_amended [] [c2mut1, c2mut2]).2 (by simp)⟩

/-! ## C9: round-trip of export then import

The export (src/App.tsx:165-175) writes `JSON.stringify(appData, null, 2)`; the import
(src/App.tsx:177-194) reads it back with `JSON.parse` and adopts the parsed value
wholesale.  The round-trip claim is settled in three pieces: the parser reads the
printed text back as the same JSON value, that JSON value decodes back to the same
store, and the import's shape check accepts it. -/

/-- An entry with every property present, as `createNewGame` makes them and in-range
edits keep them. -/
def fullEntry (g : GameEntry) : Bool :=
  g.id.isSome && g.time.isSome && g.league.isSome && g.«match».isSome &&
    g.status.isSome

/-- A games slot that is a real, fully-populated entry: no hole, no stub. -/
def wfSlot : Option GameEntry → Bool
  | none => false
  | some g => fullEntry g

def wfPlan (p : DayPlan) : Bool := p.games.all wfSlot

def wfStore (a : AppData) : Bool := a.all fun kv => wfPlan kv.2

/-- Reading an entry back out of its canonical JSON object. -/
def decodeEntry : Json → Option GameEntry
  | Json.obj [("id", Json.str i), ("time", Json.str t), ("league", Json.str l),
      ("match", Json.str m), ("status", Json.str st)] =>
    some { id := some i, time := some t, league := some l, «match» := some m,
           status := some st }
  | _ => none

def decodeSlot (j : Json) : Option (Option GameEntry) := (decodeEntry j).map some

def decodeSlots : List Json → Option (List (Option GameEntry))
  | [] => some []
  | j :: rest =>
    match decodeSlot j, decodeSlots rest with
    | some s, some t => some (s :: t)
    | _, _ => none

def decodeDayPlan : Json → Option DayPlan
  | Json.obj [("date", Json.str d), ("games", Json.arr l)] =>
    (decodeSlots l).map fun gs => { date := d, games := gs }
  | _ => none

def decodeFields : List (String × Json) → Option AppData
  | [] => some []
  | (k, j) :: rest =>
    match decodeDayPlan j, decodeFields rest with
    | some p, some t => some ((k, p) :: t)
    | _, _ => none

def decodeAppData : Json → Option AppData
  | Json.obj fs => decodeFields fs
  | _ => none

theorem fullEntry_createNewGame (u : String) : fullEntry (createNewGame u) = true := rfl

theorem fullEntry_setField (g : GameEntry) (f : Field) (v : String)
    (h : fullEntry g = true) : fullEntry (g.setField f v) = true := by
  cases f <;> simp_all [fullEntry, GameEntry.setField]

theorem decodeEntry_encodeEntry (g : GameEntry) (h : fullEntry g = true) :
    decodeEntry (encodeEntry g) = some g := by
  obtain ⟨gi, gt, gl, gm, gs⟩ := g
  simp only [fullEntry, Bool.and_eq_true, Option.isSome_iff_exists] at h
  obtain ⟨⟨⟨⟨⟨i, hi⟩, t, ht⟩, l, hl⟩, m, hm⟩, st, hst⟩ := h
  subst hi ht hl hm hst
  rfl

theorem decodeSlot_encodeSlot (s : Option GameEntry) (h : wfSlot s = true) :
    decodeSlot (encodeSlot s) = some s := by
  cases s with
  | none => exact absurd h (by simp [wfSlot])
  | some g => simp [encodeSlot, decodeSlot, decodeEntry_encodeEntry g h]

theorem decodeSlots_encode (l : List (Option GameEntry)) (h : l.all wfSlot = true) :
    decodeSlots (l.map encodeSlot) = some l := by
  induction l with
  | nil => rfl
  | cons s t ih =>
    rw [List.all_cons, Bool.and_eq_true] at h
    rw [List.map_cons, decodeSlots, decodeSlot_encodeSlot s h.1, ih h.2]

theorem decodeDayPlan_encodeDayPlan (p : DayPlan) (h : wfPlan p = true) :
    decodeDayPlan (encodeDayPlan p) = some p := by
  obtain ⟨d, gs⟩ := p
  rw [encodeDayPlan, decodeDayPlan]
  dsimp only
  rw [decodeSlots_encode gs h]
  rfl

theorem decodeAppData_encodeAppData (a : AppData) (h : wfStore a = true) :
    decodeAppData (encodeAppData a) = some a := by
  induction a with
  | nil => rfl
  | cons kv t ih =>
    rw [wfStore, List.all_cons, Bool.and_eq_true] at h
    obtain ⟨k, p⟩ := kv
    have iht : decodeFields (t.map fun kv => (kv.1, encodeDayPlan kv.2)) = some t := by
      have := ih h.2
      rwa [encodeAppData, decodeAppData] at this
    rw [encodeAppData, decodeAppData, List.map_cons, decodeFields,
      decodeDayPlan_encodeDayPlan p h.1, iht]

/-! ### Reachable stores are well-formed -/

/-- The stores reachable from the empty store through the PlanStore operations as the
UI can issue them: add, remove, confirmed clear, and setEntryField at a position taken
from the current render of the day's plan (hence in range — entry positions and ids
are always sourced from the rendered store). -/
inductive Reach : AppData → Prop where
  | empty : Reach []
  | add (a : AppData) (d i1 i2 : String) :
      Reach a → Reach (handleAddGame a (some d) i1 i2)
  | remove (a : AppData) (d t i1 i2 : String) :
      Reach a → Reach (handleRemoveGame a (some d) t i1 i2)
  | clear (a : AppData) (d i : String) :
      Reach a → Reach (handleClearDay a (some d) true i)
  | update (a : AppData) (d : String) (idx : Nat) (f : Field) (v : String)
      (i1 i2 : String) : Reach a →
      idx <
        ((selectedDayPlan a (some d) i1).getD { date := d, games := [] }).games.length →
      Reach (handleUpdateGame a (some d) idx f v i1 i2)

theorem all_set {α : Type} (p : α → Bool) (l : List α) (i : Nat) (x : α)
    (hl : l.all p = true) (hx : p x = true) : (l.set i x).all p = true := by
  induction l generalizing i with
  | nil => rfl
  | cons a t ih =>
    rw [List.all_cons, Bool.and_eq_true] at hl
    cases i with
    | zero => simp [List.set, hx, hl.2]
    | succ n => simp [List.set, hl.1, ih n hl.2]

theorem wfStore_jsSetKey (a : AppData) (k : String) (p : DayPlan)
    (ha : wfStore a = true) (hp : wfPlan p = true) :
    wfStore (jsSetKey a k p) = true := by
  induction a with
  | nil => simp [jsSetKey, wfStore, hp]
  | cons kv t ih =>
    obtain ⟨k', v'⟩ := kv
    rw [wfStore, List.all_cons, Bool.and_eq_true] at ha
    simp only [jsSetKey]
    by_cases hk : k' = k
    · rw [if_pos hk, wfStore, List.all_cons, Bool.and_eq_true]
      exact ⟨hp, ha.2⟩
    · rw [if_neg hk, wfStore, List.all_cons, Bool.and_eq_true]
      exact ⟨ha.1, ih ha.2⟩

theorem wfPlan_jsGet (a : AppData) (d : String) (p : DayPlan) (ha : wfStore a = true)
    (h : jsGet a d = some p) : wfPlan p = true := by
  induction a with
  | nil => exact Option.noConfusion h
  | cons kv t ih =>
    obtain ⟨k', v'⟩ := kv
    rw [wfStore, List.all_cons, Bool.and_eq_true] at ha
    rw [jsGet] at h
    by_cases hk : k' = d
    · rw [if_pos hk] at h
      injection h with h
      subst h
      exact ha.1
    · rw [if_neg hk] at h
      exact ih ha.2 h

theorem wf_filterOutId (l : List (Option GameEntry)) (t : String)
    (h : l.all wfSlot = true) : (filterOutId l t).all wfSlot = true := by
  induction l with
  | nil => rfl
  | cons s rest ih =>
    rw [List.all_cons, Bool.and_eq_true] at h
    cases s with
    | none => exact absurd h.1 (by simp [wfSlot])
    | some g =>
      rw [filterOutId, List.filterMap_cons]
      by_cases hid : g.id = some t
      · simp only [hid, if_pos rfl]
        exact ih h.2
      · simp only [if_neg hid]
        rw [List.all_cons, Bool.and_eq_true]
        exact ⟨h.1, ih h.2⟩

theorem wfPlan_selected (a : AppData) (d i : String) (ha : wfStore a = true) :
    wfPlan ((jsGet a d).getD { date := d, games := [some (createNewGame i)] }) =
      true := by
  cases h : jsGet a d with
  | none => simp [wfPlan, List.all_cons, wfSlot, fullEntry_createNewGame]
  | some p => simpa using wfPlan_jsGet a d p ha h

theorem wf_slot_at (l : List (Option GameEntry)) (i : Nat) (h : l.all wfSlot = true)
    (hi : i < l.length) : ∃ g, l.get? i = some (some g) ∧ fullEntry g = true := by
  have hm : l[i] ∈ l := List.getElem_mem hi
  have hall := List.all_eq_true.mp h _ hm
  cases hsl : l[i] with
  | none =>
    rw [hsl] at hall
    exact absurd hall (by simp [wfSlot])
  | some g =>
    refine ⟨g, ?_, by rwa [hsl] at hall⟩
    rw [List.get?_eq_getElem?, List.getElem?_eq_getElem hi, hsl]

theorem reach_wf (a : AppData) (h : Reach a) : wfStore a = true := by
  induction h with
  | empty => rfl
  | add a d i1 i2 _ ih =>
    simp only [handleAddGame, selectedDayPlan, Option.getD_some]
    apply wfStore_jsSetKey _ _ _ ih
    rw [wfPlan]
    dsimp only
    rw [List.all_append, Bool.and_eq_true]
    exact ⟨wfPlan_selected a d i1 ih, by simp [wfSlot, fullEntry_createNewGame]⟩
  | remove a d t i1 i2 _ ih =>
    simp only [handleRemoveGame, selectedDayPlan, Option.getD_some]
    apply wfStore_jsSetKey _ _ _ ih
    rw [wfPlan]
    dsimp only
    split
    · simp [wfSlot, fullEntry_createNewGame]
    · exact wf_filterOutId _ _ (wfPlan_selected a d i1 ih)
  | clear a d i _ ih =>
    simp only [handleClearDay, if_pos rfl]
    exact wfStore_jsSetKey _ _ _ ih (by simp [wfPlan, wfSlot, fullEntry_createNewGame])
  | update a d idx f v i1 i2 _ hidx ih =>
    simp only [handleUpdateGame, selectedDayPlan, Option.getD_some]
    apply wfStore_jsSetKey _ _ _ ih
    have hcur := wfPlan_selected a d i1 ih
    have hidx' :
        idx <
          ((jsGet a d).getD
            { date := d, games := [some (createNewGame i1)] }).games.length := by
      simpa [selectedDayPlan] using hidx
    obtain ⟨g, hg, hfull⟩ := wf_slot_at _ idx hcur hidx'
    rw [wfPlan]
    dsimp only
    rw [jsArraySet, if_pos hidx']
    apply all_set _ _ _ _ hcur
    show wfSlot (some (spreadSet _ f v)) = true
    rw [spreadSet, jsIndex, hg]
    exact fullEntry_setField g f v hfull

/-! ### The parser reads the printed text back -/

theorem skipWs_cons_ws (c : Char) (cs : List Char) (h : isWsChar c = true) :
    skipWs (c :: cs) = skipWs cs := by
  simp [skipWs, List.dropWhile_cons, h]

theorem skipWs_cons_not (c : Char) (cs : List Char) (h : isWsChar c = false) :
    skipWs (c :: cs) = c :: cs := by
  simp [skipWs, List.dropWhile_cons, h]

theorem skipWs_pad_append (n : Nat) (cs : List Char) :
    skipWs (pad n ++ cs) = skipWs cs := by
  induction n with
  | zero => rfl
  | succ m ih =>
    rw [pad, List.replicate_succ, List.cons_append, skipWs_cons_ws _ _ (by decide)]
    exact ih

theorem parseVal_congr (fuel : Nat) (cs1 cs2 : List Char)
    (h : skipWs cs1 = skipWs cs2) : parseVal fuel cs1 = parseVal fuel cs2 := by
  cases fuel with
  | zero => rfl
  | succ f => simp only [parseVal, h]

theorem parseArrElems_congr (fuel : Nat) (cs1 cs2 : List Char)
    (h : skipWs cs1 = skipWs cs2) : parseArrElems fuel cs1 = parseArrElems fuel cs2 := by
  cases fuel with
  | zero => rfl
  | succ f => simp only [parseArrElems, h]

theorem parseObjFields_congr (fuel : Nat) (cs1 cs2 : List Char)
    (h : skipWs cs1 = skipWs cs2) :
    parseObjFields fuel cs1 = parseObjFields fuel cs2 := by
  cases fuel with
  | zero => rfl
  | succ f => simp only [parseObjFields, h]

theorem hexVal_hexDigit : ∀ n < 16, hexVal (hexDigit n) = some n := by decide

theorem parseStringBody_escape (l rest : List Char) :
    parseStringBody (escapeList l ++ '"' :: rest) = some (l, rest) := by
  induction l with
  | nil =>
    show parseStringBody ([] ++ '"' :: rest) = some ([], rest)
    rw [List.nil_append, parseStringBody.eq_def]
    simp +decide
  | cons c cs ih =>
    have hesc : escapeList (c :: cs) = escapeChar c ++ escapeList cs := by
      rw [escapeList, escapeList, List.map_cons, List.flatten_cons]
    rw [hesc, List.append_assoc]
    by_cases h1 : c = '"'
    · subst h1
      rw [show escapeChar '"' = ['\\', '"'] from by decide, List.cons_append,
        List.cons_append, List.nil_append, parseStringBody.eq_def]
      simp +decide [ih]
    by_cases h2 : c = '\\'
    · subst h2
      rw [show escapeChar '\\' = ['\\', '\\'] from by decide, List.cons_append,
        List.cons_append, List.nil_append, parseStringBody.eq_def]
      simp +decide [ih]
    by_cases h3 : c = '\n'
    · subst h3
      rw [show escapeChar '\n' = ['\\', 'n'] from by decide, List.cons_append,
        List.cons_append, List.nil_append, parseStringBody.eq_def]
      simp +decide [ih]
    by_cases h4 : c = '\r'
    · subst h4
      rw [show escapeChar '\r' = ['\\', 'r'] from by decide, List.cons_append,
        List.cons_append, List.nil_append, parseStringBody.eq_def]
      simp +decide [ih]
    by_cases h5 : c = '\t'
    · subst h5
      rw [show escapeChar '\t' = ['\\', 't'] from by decide, List.cons_append,
        List.cons_append, List.nil_append, parseStringBody.eq_def]
      simp +decide [ih]
    by_cases h6 : c = Char.ofNat 8
    · subst h6
      rw [show escapeChar (Char.ofNat 8) = ['\\', 'b'] from by decide, List.cons_append,
        List.cons_append, List.nil_append, parseStringBody.eq_def]
      simp +decide [ih]
    by_cases h7 : c = Char.ofNat 12
    · subst h7
      rw [show escapeChar (Char.ofNat 12) = ['\\', 'f'] from by decide, List.cons_append,
        List.cons_append, List.nil_append, parseStringBody.eq_def]
      simp +decide [ih]
    by_cases h8 : c.toNat < 32
    · rw [escapeChar, if_neg h1, if_neg h2, if_neg h3, if_neg h4, if_neg h5, if_neg h6,
        if_neg h7, if_pos h8]
      have hhi := hexVal_hexDigit (c.toNat / 16) (by omega)
      have hlo := hexVal_hexDigit (c.toNat % 16) (by omega)
      simp only [List.cons_append, List.nil_append]
      rw [parseStringBody.eq_def]
      simp +decide [hhi, hlo, show hexVal '0' = some 0 from by decide, ih]
      have harg : 16 * (c.toNat / 16) + c.toNat % 16 = c.toNat := by omega
      rw [harg, Char.ofNat_toNat]
    · rw [escapeChar, if_neg h1, if_neg h2, if_neg h3, if_neg h4, if_neg h5, if_neg h6,
        if_neg h7, if_neg h8]
      rw [List.singleton_append, parseStringBody.eq_def]
      simp +decide [h1, h2, ih]

theorem parseVal_cons_ws (fuel : Nat) (c : Char) (cs : List Char)
    (h : isWsChar c = true) : parseVal fuel (c :: cs) = parseVal fuel cs :=
  parseVal_congr _ _ _ (skipWs_cons_ws c cs h)

theorem parseVal_quoteStr (fuel : Nat) (s : String) (rest : List Char) (h : 1 ≤ fuel) :
    parseVal fuel (quoteStr s ++ rest) = some (Json.str s, rest) := by
  obtain ⟨f, rfl⟩ : ∃ f, fuel = f + 1 := ⟨fuel - 1, by omega⟩
  rw [parseVal.eq_def]
  simp +decide [quoteStr, skipWs_cons_not, isWsChar, parseStringBody_escape]

/-- `printVal` of a string is its quoted literal. -/
theorem printVal_str (ind : Nat) (s : String) :
    printVal ind (Json.str s) = quoteStr s := by
  rw [printVal]

theorem parseVal_printed_str (s : String) :
    ∀ fuel ind rest, 1 ≤ fuel →
      parseVal fuel (printVal ind (Json.str s) ++ rest) = some (Json.str s, rest) := by
  intro fuel ind rest h
  rw [printVal_str]
  exact parseVal_quoteStr fuel s rest h

/-- Reading the printed items of a nonempty object back, given that each field value's
printed form reads back with fuel `n`.  `ind` is the item indent, `indC` the closing
brace's indent, both arbitrary. -/
theorem parseObjFields_printed (n : Nat) (fs : List (String × Json)) :
    ∀ (k : String) (v : Json),
      (∀ w ∈ v :: fs.map Prod.snd, ∀ fuel ind rest, n ≤ fuel →
        parseVal fuel (printVal ind w ++ rest) = some (w, rest)) →
      ∀ fuel ind indC rest, fs.length + n + 2 ≤ fuel →
        parseObjFields fuel
            ('\n' :: (printObjItems ind k v fs ++
              '\n' :: (pad indC ++ '\x7d' :: rest))) =
          some ((k, v) :: fs, rest) := by
  induction fs with
  | nil =>
    intro k v hv fuel ind indC rest hfuel
    obtain ⟨f, rfl⟩ : ∃ f, fuel = f + 1 := ⟨fuel - 1, by omega⟩
    have hvv :
        parseVal f (printVal ind v ++ '\n' :: (pad indC ++ '\x7d' :: rest)) =
          some (v, '\n' :: (pad indC ++ '\x7d' :: rest)) :=
      hv v (by simp) f ind _ (by omega)
    rw [printObjItems, parseObjFields.eq_def]
    simp +decide [quoteStr, skipWs_cons_ws, skipWs_cons_not, skipWs_pad_append, isWsChar,
      parseStringBody_escape, parseVal_cons_ws, hvv]
  | cons g gs ih =>
    intro k v hv fuel ind indC rest hfuel
    obtain ⟨f, rfl⟩ : ∃ f, fuel = f + 1 := ⟨fuel - 1, by omega⟩
    obtain ⟨k2, v2⟩ := g
    have hvv :
        parseVal f (printVal ind v ++ ',' :: '\n' ::
            (printObjItems ind k2 v2 gs ++ '\n' :: (pad indC ++ '\x7d' :: rest))) =
          some (v, ',' :: '\n' ::
            (printObjItems ind k2 v2 gs ++ '\n' :: (pad indC ++ '\x7d' :: rest))) :=
      hv v (by simp) f ind _ (by simp at hfuel ⊢; omega)
    have hrec :
        parseObjFields f
            ('\n' :: (printObjItems ind k2 v2 gs ++
              '\n' :: (pad indC ++ '\x7d' :: rest))) =
          some ((k2, v2) :: gs, rest) := by
      refine ih k2 v2 (fun w hw => hv w ?_) f ind indC rest ?_
      · simp at hw ⊢
        tauto
      · simp at hfuel ⊢
        omega
    rw [printObjItems, parseObjFields.eq_def]
    simp +decide [quoteStr, skipWs_cons_ws, skipWs_cons_not, skipWs_pad_append, isWsChar,
      parseStringBody_escape, parseVal_cons_ws, hvv, hrec]

/-- Reading the printed items of a nonempty array back.  Every element here prints as
an object (so its first character is an opening brace) — true of every games slot. -/
theorem parseArrElems_printed (n : Nat) (vs : List Json) :
    ∀ (v : Json),
      (∀ w ∈ v :: vs, ∀ fuel ind rest, n ≤ fuel →
        parseVal fuel (printVal ind w ++ rest) = some (w, rest)) →
      (∀ w ∈ v :: vs, ∀ ind, ∃ t, printVal ind w = '\x7b' :: t) →
      ∀ fuel ind indC rest, vs.length + n + 2 ≤ fuel →
        parseArrElems fuel
            ('\n' :: (printArrItems ind v vs ++ '\n' :: (pad indC ++ ']' :: rest))) =
          some (v :: vs, rest) := by
  induction vs with
  | nil =>
    intro v hv hhead fuel ind indC rest hfuel
    obtain ⟨f, rfl⟩ : ∃ f, fuel = f + 1 := ⟨fuel - 1, by omega⟩
    obtain ⟨t, ht⟩ := hhead v (by simp) ind
    have hvv : parseVal f (printVal ind v ++ '\n' :: (pad indC ++ ']' :: rest)) =
        some (v, '\n' :: (pad indC ++ ']' :: rest)) :=
      hv v (by simp) f ind _ (by omega)
    rw [ht, List.cons_append] at hvv
    rw [printArrItems, ht, parseArrElems.eq_def]
    simp +decide [skipWs_cons_ws, skipWs_cons_not, skipWs_pad_append, isWsChar, hvv]
  | cons w ws ih =>
    intro v hv hhead fuel ind indC rest hfuel
    obtain ⟨f, rfl⟩ : ∃ f, fuel = f + 1 := ⟨fuel - 1, by omega⟩
    obtain ⟨t, ht⟩ := hhead v (by simp) ind
    have hvv : parseVal f (printVal ind v ++ ',' :: '\n' ::
          (printArrItems ind w ws ++ '\n' :: (pad indC ++ ']' :: rest))) =
        some (v, ',' :: '\n' ::
          (printArrItems ind w ws ++ '\n' :: (pad indC ++ ']' :: rest))) :=
      hv v (by simp) f ind _ (by simp at hfuel ⊢; omega)
    rw [ht, List.cons_append] at hvv
    have hrec :
        parseArrElems f
            ('\n' :: (printArrItems ind w ws ++ '\n' :: (pad indC ++ ']' :: rest))) =
          some (w :: ws, rest) := by
      refine ih w (fun u hu => hv u ?_) (fun u hu => hhead u ?_) f ind indC rest ?_
      · simp at hu ⊢
        tauto
      · simp at hu ⊢
        tauto
      · simp at hfuel ⊢
        omega
    rw [printArrItems, ht, parseArrElems.eq_def]
    simp +decide [skipWs_cons_ws, skipWs_cons_not, skipWs_pad_append, isWsChar, hvv,
      hrec]

/-- Any JSON object prints with an opening brace first. -/
theorem printVal_obj_head (ind : Nat) (fs : List (String × Json)) :
    ∃ t, printVal ind (Json.obj fs) = '\x7b' :: t := by
  cases fs with
  | nil => exact ⟨['\x7d'], by rw [printVal]⟩
  | cons g gs =>
    obtain ⟨k, v⟩ := g
    exact ⟨_, by rw [printVal]⟩

/-- The printed form of a full entry's JSON object reads back, with fuel 8. -/
theorem parseVal_printed_entry (g : GameEntry) (h : fullEntry g = true) :
    ∀ fuel ind rest, 8 ≤ fuel →
      parseVal fuel (printVal ind (encodeEntry g) ++ rest) =
        some (encodeEntry g, rest) := by
  obtain ⟨gi, gt, gl, gm, gs⟩ := g
  simp only [fullEntry, Bool.and_eq_true, Option.isSome_iff_exists] at h
  obtain ⟨⟨⟨⟨⟨i, hi⟩, t, ht⟩, l, hl⟩, m, hm⟩, st, hst⟩ := h
  subst hi ht hl hm hst
  intro fuel ind rest hfuel
  obtain ⟨f, rfl⟩ : ∃ f, fuel = f + 1 := ⟨fuel - 1, by omega⟩
  have henc : encodeEntry
      { id := some i, time := some t, league := some l, «match» := some m,
        status := some st } =
      Json.obj [("id", Json.str i), ("time", Json.str t), ("league", Json.str l),
        ("match", Json.str m), ("status", Json.str st)] := rfl
  have hfields := parseObjFields_printed 1
    [("time", Json.str t), ("league", Json.str l), ("match", Json.str m),
      ("status", Json.str st)] "id" (Json.str i)
    (by
      intro w hw fuel2 ind2 rest2 h2
      simp only [List.map_cons, List.map_nil, List.mem_cons, List.mem_singleton] at hw
      rcases hw with rfl | rfl | rfl | rfl | h5
      · exact parseVal_printed_str i fuel2 ind2 rest2 h2
      · exact parseVal_printed_str t fuel2 ind2 rest2 h2
      · exact parseVal_printed_str l fuel2 ind2 rest2 h2
      · exact parseVal_printed_str m fuel2 ind2 rest2 h2
      · simp at h5
        subst h5
        exact parseVal_printed_str st fuel2 ind2 rest2 h2)
    f (ind + 2) ind rest (by simp; omega)
  rw [henc, printVal, parseVal.eq_def]
  simp +decide [skipWs_cons_not, isWsChar, hfields]

theorem parseVal_printed_slot (x : Option GameEntry) (h : wfSlot x = true) :
    ∀ fuel ind rest, 8 ≤ fuel →
      parseVal fuel (printVal ind (encodeSlot x) ++ rest) = some (encodeSlot x, rest) := by
  cases x with
  | none => exact absurd h (by simp [wfSlot])
  | some g =>
    show ∀ fuel ind rest, 8 ≤ fuel →
      parseVal fuel (printVal ind (encodeEntry g) ++ rest) = some (encodeEntry g, rest)
    exact parseVal_printed_entry g h

theorem printVal_encodeSlot_head (x : Option GameEntry) (h : wfSlot x = true)
    (ind : Nat) : ∃ t, printVal ind (encodeSlot x) = '\x7b' :: t := by
  cases x with
  | none => exact absurd h (by simp [wfSlot])
  | some g =>
    show ∃ t, printVal ind (encodeEntry g) = '\x7b' :: t
    simp only [encodeEntry]
    exact printVal_obj_head ind _

/-- The printed games array reads back, with fuel `length + 10`. -/
theorem parseVal_printed_games (l : List (Option GameEntry)) (h : l.all wfSlot = true) :
    ∀ fuel ind rest, l.length + 10 ≤ fuel →
      parseVal fuel (printVal ind (Json.arr (l.map encodeSlot)) ++ rest) =
        some (Json.arr (l.map encodeSlot), rest) := by
  intro fuel ind rest hfuel
  obtain ⟨f, rfl⟩ : ∃ f, fuel = f + 1 := ⟨fuel - 1, by omega⟩
  cases l with
  | nil =>
    obtain ⟨f2, rfl⟩ : ∃ f2, f = f2 + 1 := ⟨f - 1, by omega⟩
    have harr : parseArrElems (f2 + 1) (']' :: rest) = some ([], rest) := by
      rw [parseArrElems.eq_def]
      simp +decide [skipWs_cons_not, isWsChar]
    rw [List.map_nil, printVal, parseVal.eq_def]
    simp +decide [skipWs_cons_not, isWsChar, harr]
  | cons s ls =>
    rw [List.all_cons, Bool.and_eq_true] at h
    have hmem : ∀ w ∈ encodeSlot s :: ls.map encodeSlot,
        ∃ x, x ∈ s :: ls ∧ w = encodeSlot x ∧ wfSlot x = true := by
      intro w hw
      rcases List.mem_cons.mp hw with rfl | hw2
      · exact ⟨s, by simp, rfl, h.1⟩
      · obtain ⟨x, hx, rfl⟩ := List.mem_map.mp hw2
        exact ⟨x, by simp [hx], rfl, List.all_eq_true.mp h.2 x hx⟩
    have helems := parseArrElems_printed 8 (ls.map encodeSlot) (encodeSlot s)
      (by
        intro w hw fuel2 ind2 rest2 h2
        obtain ⟨x, _, rfl, hxwf⟩ := hmem w hw
        exact parseVal_printed_slot x hxwf fuel2 ind2 rest2 h2)
      (by
        intro w hw ind2
        obtain ⟨x, _, rfl, hxwf⟩ := hmem w hw
        exact printVal_encodeSlot_head x hxwf ind2)
      f (ind + 2) ind rest (by simp at hfuel ⊢; omega)
    rw [List.map_cons, printVal, parseVal.eq_def]
    simp +decide [skipWs_cons_not, isWsChar, helems]

/-- The printed day-plan object reads back, with fuel `games.length + 14`. -/
theorem parseVal_printed_plan (p : DayPlan) (h : wfPlan p = true) :
    ∀ fuel ind rest, p.games.length + 14 ≤ fuel →
      parseVal fuel (printVal ind (encodeDayPlan p) ++ rest) =
        some (encodeDayPlan p, rest) := by
  intro fuel ind rest hfuel
  obtain ⟨f, rfl⟩ : ∃ f, fuel = f + 1 := ⟨fuel - 1, by omega⟩
  have hfields := parseObjFields_printed (p.games.length + 10)
    [("games", Json.arr (p.games.map encodeSlot))] "date" (Json.str p.date)
    (by
      intro w hw fuel2 ind2 rest2 h2
      simp only [List.map_cons, List.map_nil, List.mem_cons, List.mem_singleton] at hw
      rcases hw with rfl | h3
      · exact parseVal_printed_str p.date fuel2 ind2 rest2 (by omega)
      · simp at h3
        subst h3
        exact parseVal_printed_games p.games h fuel2 ind2 rest2 h2)
    f (ind + 2) ind rest (by simp; omega)
  show parseVal (f + 1)
      (printVal ind (Json.obj [("date", Json.str p.date),
        ("games", Json.arr (p.games.map encodeSlot))]) ++ rest) = _
  rw [printVal, parseVal.eq_def]
  simp +decide [skipWs_cons_not, isWsChar, hfields]
  rfl

/-- The parse-fuel budget for a store: enough for every nested descent. -/
def plansNeed (a : AppData) : Nat :=
  a.foldr (fun kv acc => kv.2.games.length + 14 + acc) 0

theorem plansNeed_mem (a : AppData) (kv : String × DayPlan) (h : kv ∈ a) :
    kv.2.games.length + 14 ≤ plansNeed a := by
  induction a with
  | nil => cases h
  | cons hd tl ih =>
    rcases List.mem_cons.mp h with rfl | h2
    · simp [plansNeed]
    · have := ih h2
      simp only [plansNeed, List.foldr_cons] at this ⊢
      omega

/-- The printed store object reads back, with fuel `length + plansNeed + 3`. -/
theorem parseVal_printed_store (a : AppData) (h : wfStore a = true) :
    ∀ fuel ind rest, a.length + plansNeed a + 3 ≤ fuel →
      parseVal fuel (printVal ind (encodeAppData a) ++ rest) =
        some (encodeAppData a, rest) := by
  intro fuel ind rest hfuel
  obtain ⟨f, rfl⟩ : ∃ f, fuel = f + 1 := ⟨fuel - 1, by omega⟩
  cases a with
  | nil =>
    obtain ⟨f2, rfl⟩ : ∃ f2, f = f2 + 1 := ⟨f - 1, by omega⟩
    have hobj : parseObjFields (f2 + 1) ('\x7d' :: rest) = some ([], rest) := by
      rw [parseObjFields.eq_def]
      simp +decide [skipWs_cons_not, isWsChar]
    show parseVal (f2 + 1 + 1) (printVal ind (Json.obj []) ++ rest) = _
    rw [printVal, parseVal.eq_def]
    simp +decide [skipWs_cons_not, isWsChar, hobj]
    rfl
  | cons kv tl =>
    obtain ⟨k, p⟩ := kv
    rw [wfStore, List.all_cons, Bool.and_eq_true] at h
    have hmem : ∀ w ∈ encodeDayPlan p :: (tl.map fun kv => (kv.1, encodeDayPlan kv.2)).map Prod.snd,
        ∃ q, q.games.length + 14 ≤ plansNeed ((k, p) :: tl) ∧ w = encodeDayPlan q ∧
          wfPlan q = true := by
      intro w hw
      rcases List.mem_cons.mp hw with rfl | hw2
      · exact ⟨p, plansNeed_mem _ (k, p) (by simp), rfl, h.1⟩
      · simp only [List.map_map, List.mem_map] at hw2
        obtain ⟨⟨k2, q⟩, hq, rfl⟩ := hw2
        exact ⟨q, plansNeed_mem _ (k2, q) (by simp [hq]), rfl,
          List.all_eq_true.mp h.2 _ hq⟩
    have hfields := parseObjFields_printed (plansNeed ((k, p) :: tl))
      (tl.map fun kv => (kv.1, encodeDayPlan kv.2)) k (encodeDayPlan p)
      (by
        intro w hw fuel2 ind2 rest2 h2
        obtain ⟨q, hqn, rfl, hqwf⟩ := hmem w hw
        exact parseVal_printed_plan q hqwf fuel2 ind2 rest2 (by omega))
      f (ind + 2) ind rest (by simp at hfuel ⊢; omega)
    show parseVal (f + 1)
        (printVal ind (Json.obj ((k, encodeDayPlan p) ::
          tl.map fun kv => (kv.1, encodeDayPlan kv.2))) ++ rest) = _
    rw [printVal, parseVal.eq_def]
    simp +decide [skipWs_cons_not, isWsChar, hfields]
    rfl

/-! ### The parse fuel derived from the text length is always enough -/

theorem quoteStr_len (s : String) : 2 ≤ (quoteStr s).length := by
  rw [quoteStr]
  simp

theorem printVal_encodeSlot_len (ind : Nat) (s : Option GameEntry) :
    1 ≤ (printVal ind (encodeSlot s)).length := by
  cases s with
  | none =>
    show 1 ≤ (printVal ind Json.null).length
    rw [printVal]
    decide
  | some g =>
    show 1 ≤ (printVal ind (encodeEntry g)).length
    simp only [encodeEntry]
    obtain ⟨t, ht⟩ := printVal_obj_head ind
      ((match g.id with | none => [] | some s => [("id", Json.str s)]) ++
        (match g.time with | none => [] | some s => [("time", Json.str s)]) ++
        (match g.league with | none => [] | some s => [("league", Json.str s)]) ++
        (match g.«match» with | none => [] | some s => [("match", Json.str s)]) ++
        (match g.status with | none => [] | some s => [("status", Json.str s)]))
    rw [ht]
    simp

theorem printArrItems_slots_len (ind : Nat) (s : Option GameEntry)
    (l : List (Option GameEntry)) :
    l.length + 1 ≤ (printArrItems ind (encodeSlot s) (l.map encodeSlot)).length := by
  induction l generalizing s ind with
  | nil =>
    rw [List.map_nil, printArrItems]
    have := printVal_encodeSlot_len ind s
    simp [List.length_append]
    omega
  | cons x xs ih =>
    rw [List.map_cons, printArrItems]
    have h1 := ih ind x
    have h2 := printVal_encodeSlot_len ind s
    simp [List.length_append] at h1 ⊢
    omega

theorem printVal_games_len (ind : Nat) (l : List (Option GameEntry)) :
    l.length ≤ (printVal ind (Json.arr (l.map encodeSlot))).length := by
  cases l with
  | nil =>
    rw [List.map_nil, printVal]
    simp
  | cons s ls =>
    rw [List.map_cons, printVal]
    have := printArrItems_slots_len (ind + 2) s ls
    simp [List.length_append] at this ⊢
    omega

theorem printVal_plan_len (ind : Nat) (p : DayPlan) :
    p.games.length + 16 ≤ (printVal ind (encodeDayPlan p)).length := by
  show p.games.length + 16 ≤
    (printVal ind (Json.obj [("date", Json.str p.date),
      ("games", Json.arr (p.games.map encodeSlot))])).length
  rw [printVal, printObjItems, printObjItems]
  have h1 := quoteStr_len p.date
  have h2 := printVal_games_len (ind + 2) p.games
  have h3 : (quoteStr "date").length = 6 := rfl
  have h4 : (quoteStr "games").length = 7 := rfl
  rw [printVal_str]
  simp [List.length_append, h3, h4]
  omega

theorem printObjItems_store_len (ind : Nat) (k : String) (p : DayPlan) (tl : AppData) :
    plansNeed ((k, p) :: tl) + ((k, p) :: tl).length ≤
      (printObjItems ind k (encodeDayPlan p)
        (tl.map fun kv => (kv.1, encodeDayPlan kv.2))).length := by
  induction tl generalizing k p ind with
  | nil =>
    rw [List.map_nil, printObjItems]
    have h1 := quoteStr_len k
    have h2 := printVal_plan_len ind p
    simp [List.length_append, plansNeed]
    omega
  | cons kv2 tl2 ih =>
    obtain ⟨k2, p2⟩ := kv2
    rw [List.map_cons, printObjItems]
    have h1 := quoteStr_len k
    have h2 := printVal_plan_len ind p
    have h3 := ih ind k2 p2
    simp [List.length_append, plansNeed, List.foldr_cons] at h3 ⊢
    omega

theorem storeNeed_le (a : AppData) :
    a.length + plansNeed a + 3 ≤ 2 * (printVal 0 (encodeAppData a)).length + 2 := by
  cases a with
  | nil =>
    show _ ≤ 2 * (printVal 0 (Json.obj [])).length + 2
    rw [printVal]
    simp [plansNeed]
  | cons kv tl =>
    obtain ⟨k, p⟩ := kv
    show _ ≤ 2 * (printVal 0 (Json.obj ((k, encodeDayPlan p) ::
      tl.map fun kv => (kv.1, encodeDayPlan kv.2)))).length + 2
    rw [printVal]
    have h1 := printObjItems_store_len 2 k p tl
    simp [List.length_append, plansNeed, List.foldr_cons] at h1 ⊢
    omega

/-! ### The round-trip theorem -/

/-- `exportData`'s file content (src/App.tsx:166): `JSON.stringify(appData, null, 2)`. -/
def exportData (a : AppData) : String := stringifyPretty (encodeAppData a)

theorem parseJson_exportData (a : AppData) (h : wfStore a = true) :
    parseJson (exportData a) = some (encodeAppData a) := by
  have hlen := storeNeed_le a
  have hp := parseVal_printed_store a h
    (2 * (printVal 0 (encodeAppData a)).length + 2) 0 [] (by omega)
  rw [List.append_nil] at hp
  show (match parseVal (2 * (printVal 0 (encodeAppData a)).length + 2)
      (printVal 0 (encodeAppData a)) with
    | some (v, rest) => if skipWs rest = [] then some v else none
    | none => none) = some (encodeAppData a)
  rw [hp]
  simp [skipWs]

theorem typeof_encodeAppData (a : AppData) :
    typeofIsObject (encodeAppData a) = true := rfl

/-- C9: for every store built from the PlanStore operations starting at the empty
store, the import of the exported file round-trips: the pretty-printed export parses
back to exactly the store's JSON value, that value decodes field-for-field (order
preserved) to the original store, and the import path accepts it (shape check passes,
success alert, `setAppData` called with the parsed value). -/
theorem export_import_roundtrip (a : AppData) (h : Reach a) :
    (parseJson (exportData a)).bind decodeAppData = some a ∧
      parseJson (exportData a) = some (encodeAppData a) ∧
      (importData (exportData a)).newStore = some (encodeAppData a) ∧
      (importData (exportData a)).alert = some "Backup importado com sucesso!" := by
  have hwf := reach_wf a h
  have h1 := parseJson_exportData a hwf
  have h2 := decodeAppData_encodeAppData a hwf
  refine ⟨?_, h1, ?_, ?_⟩
  · rw [h1]
    simpa using h2
  · simp [importData, h1, typeof_encodeAppData]
  · simp [importData, h1, typeof_encodeAppData]

/-- A small reachable store: one addEntry on 2024-06-01 from the empty store. -/
def c9store : AppData := handleAddGame [] (some "2024-06-01") "u1" "u2"

/-- Witness for C9: the round-trip at `c9store`, whose reachability is witnessed by
construction. -/
theorem export_import_roundtrip_witness :
    (parseJson (exportData c9store)).bind decodeAppData = some c9store ∧
      (importData (exportData c9store)).newStore = some (encodeAppData c9store) :=
  ⟨(export_import_roundtrip c9store
      (Reach.add [] "2024-06-01" "u1" "u2" Reach.empty)).1,
    (export_import_roundtrip c9store
      (Reach.add [] "2024-06-01" "u1" "u2" Reach.empty)).2.2.1⟩

end Planner
